import Mathlib

/-!
Shallow embedding of the documentation-generation pipeline of konstraint's
`doc` command (`internal/commands/document.go`).

The external collaborators (the `rego` policy parser, the Kubernetes
`metav1.LabelSelector` and `apiextensionsv1.JSONSchemaProps` types, the
logger and the file system) are modelled by plain data: a `Policy` record
exposes exactly the accessors `getDocumentation` calls, Go maps are
modelled as association lists carrying their enumeration order, warnings
are collected in a list instead of being logged, and the host path
separator is `/` (the markdown-normalisation `strings.ReplaceAll` with
`os.PathSeparator` is then the identity and is folded into rendering).
Fallible accessors (`policy.Matchers()`) return `Except`.
-/

namespace Konstraint

/-- A resolved policy parameter; models the external `rego.Parameter`
struct (fields `Name`, `Description`, `IsArray`, `Type`). -/
structure Parameter where
  name : String
  description : String
  isArray : Bool
  type : String
deriving Repr, DecidableEq

/-- Models `Header` of `document.go`: the resolved per-document metadata. -/
structure Header where
  title : String
  description : String
  resources : String
  matchLabels : String
  anchor : String
  parameters : List Parameter
deriving Repr, DecidableEq

/-- Models `Document` of `document.go`: a single policy document. -/
structure Document where
  header : Header
  url : String
  rego : String
deriving Repr, DecidableEq

/-- Models `metav1.LabelSelectorRequirement` (only the fields
`labelSelectorDocString` reads: `Key`, `Operator`, `Values`). -/
structure LabelSelectorRequirement where
  key : String
  operator : String
  values : List String
deriving Repr, DecidableEq

/-- Models `metav1.LabelSelector`. The Go `MatchLabels` field is an
unordered `map[string]string`; it is modelled as an association list whose
list order records the enumeration order the Go runtime happens to use. -/
structure LabelSelector where
  matchLabels : List (String × String)
  matchExpressions : List LabelSelectorRequirement
deriving Repr, DecidableEq

/-- Models the fields of `apiextensionsv1.JSONSchemaProps` that
`annoParamsToLegacyFormat` reads: `Type`, `Description`, and the chain
`Items.Schema.Type` (assumed present for array-typed entries, as the
external data contract guarantees for parseable policies). -/
structure JSONSchemaProps where
  type : String
  description : String
  itemsSchemaType : String
deriving Repr, DecidableEq

/-- Models the external `rego.Matchers` value returned by
`policy.Matchers()`: the pre-formatted legacy kind-matcher string
(`KindMatchers.String()`) and label-matcher string
(`MatchLabelsMatcher.String()`). -/
structure Matchers where
  kindMatchersString : String
  matchLabelsString : String
deriving Repr, DecidableEq

/-- Models the external `rego.Rego` policy record: one field per accessor
`getDocumentation` calls. `matchers` models the fallible `Matchers()`
call; `annotationKindMatchers` holds the already-formatted `String()` of
each structured kind matcher; `annotationParameters` models the Go map in
its enumeration order. -/
structure Policy where
  kind : String
  path : String
  title : String
  description : String
  policyID : String
  severity : String
  enforcement : String
  matchers : Except String Matchers
  annotationKindMatchers : List String
  annotationLabelSelectorMatcher : Option LabelSelector
  parameters : List Parameter
  annotationParameters : List (String × JSONSchemaProps)
  source : String
  fullSource : String
deriving Repr

/-- Models the configuration read from `viper` plus the process working
directory (components of the cleaned absolute cwd), which `filepath.Abs`
consults for relative paths. -/
structure Config where
  url : String
  noRego : Bool
  includeComments : Bool
  cwd : List String
deriving Repr, DecidableEq

/-- Path cleaning on components: drops empty and `.` components and
resolves `..` against the accumulated prefix, as `filepath.Clean` does on
rooted paths. -/
def cleanComponents (cs : List String) : List String :=
  cs.foldl (fun acc c =>
    if c = "" ∨ c = "." then acc
    else if c = ".." then acc.dropLast
    else acc ++ [c]) []

/-- Splits a character list on `/`, returning the raw segments (the
separator-splitting underlying path parsing). -/
def splitSlash : List Char → List (List Char)
  | [] => [[]]
  | c :: rest =>
    if c = '/' then [] :: splitSlash rest
    else
      match splitSlash rest with
      | [] => [[c]]
      | g :: gs => (c :: g) :: gs

/-- The raw segments of a path string. -/
def pathSegments (p : String) : List String :=
  (splitSlash p.data).map (fun g => ⟨g⟩)

/-- Components of a slash-separated path string, cleaned. -/
def pathComponents (p : String) : List String :=
  cleanComponents (pathSegments p)

/-- Does the path start with the separator (is it absolute)? -/
def isAbsolute (p : String) : Bool :=
  match p.data with
  | '/' :: _ => true
  | _ => false

/-- Models `filepath.Abs`: an absolute path (leading `/`) is cleaned; a
relative path is joined onto the working directory and cleaned. -/
def absPath (cwd : List String) (p : String) : List String :=
  if isAbsolute p then pathComponents p
  else cleanComponents (cwd ++ pathSegments p)

/-- Strips the common prefix of two component lists, returning the two
remainders. -/
def stripCommon : List String → List String → List String × List String
  | a :: as, b :: bs => if a = b then stripCommon as bs else (a :: as, b :: bs)
  | as, bs => (as, bs)

/-- Models `filepath.Rel(base, targ)` on cleaned absolute component lists:
each remaining base component becomes a `..` step, followed by the
remaining target components (an empty result renders as `.`). -/
def relComponents (base targ : List String) : List String :=
  let p := stripCommon base targ
  p.1.map (fun _ => "..") ++ p.2

/-- Models `filepath.Dir` on a relative path given as components: drop the
final component (`Dir("sub/f") = "sub"`, `Dir("f") = "."`). -/
def dirComponents (cs : List String) : List String :=
  cs.dropLast

/-- Renders components back to a path string. On this host the separator
is `/`, so the markdown normalisation `strings.ReplaceAll(relDir,
string(os.PathSeparator), "/")` is the identity and is folded in here. -/
def renderPath (cs : List String) : String :=
  if cs = [] then "." else String.intercalate "/" cs

/-- Models `strings.ReplaceAll s (String a) (String b)` for
single-character pattern and replacement. -/
def replaceChar (a b : Char) (s : String) : String :=
  ⟨s.data.map (fun c => if c = a then b else c)⟩

/-- Models `strings.ReplaceAll s (String a) ""` for a single-character
pattern. -/
def removeChar (a : Char) (s : String) : String :=
  ⟨s.data.filter (fun c => c ≠ a)⟩

/-- Models `strings.ToLower` (character-wise lowercasing). -/
def toLowerStr (s : String) : String :=
  ⟨s.data.map Char.toLower⟩

/-- Models `strings.TrimSpace`: strip whitespace from both ends. -/
def trimSpace (s : String) : String :=
  ⟨((s.data.reverse.dropWhile Char.isWhitespace).reverse).dropWhile Char.isWhitespace⟩

/-- Models `strings.TrimSuffix`. -/
def trimSuffix (s suf : String) : String :=
  if suf.data.isSuffixOf s.data then ⟨s.data.take (s.data.length - suf.data.length)⟩
  else s

/-- Models Go `%v` formatting of a string slice: `[a b c]`. -/
def goSliceFormat (vs : List String) : String :=
  "[" ++ String.intercalate " " vs ++ "]"

/-- Models `labelSelectorDocString` of `document.go`: `key=value` pairs in
the map's enumeration order, then `key OPERATOR [values]` entries, each
followed by `", "`, with the final `", "` stripped. -/
def labelSelectorDocString (selector : LabelSelector) : String :=
  let r1 := selector.matchLabels.foldl
    (fun acc kv => acc ++ kv.1 ++ "=" ++ kv.2 ++ ", ") ""
  let r2 := selector.matchExpressions.foldl
    (fun acc expr => acc ++ expr.key ++ " " ++ expr.operator ++ " " ++ goSliceFormat expr.values ++ ", ") r1
  trimSuffix r2 ", "

/-- Models `annoParamsToLegacyFormat` of `document.go`: the Go `range`
loop over the parameter map (modelled in enumeration order) appending one
`rego.Parameter` per entry. -/
def annoParamsToLegacyFormat (parameters : List (String × JSONSchemaProps)) : List Parameter :=
  parameters.foldl (fun results pc =>
    if pc.2.type = "array" then
      results ++ [{ name := pc.1, description := pc.2.description, isArray := true,
                    type := pc.2.itemsSchemaType }]
    else
      results ++ [{ name := pc.1, description := pc.2.description, isArray := false,
                    type := pc.2.type }]) []

/-- The warnings `getDocumentation` emits via `logger.Warn`, tagged with
the policy path. -/
inductive Warning where
  | noTitle (path : String)
  | noKindMatchers (path : String)
deriving Repr, DecidableEq

/-- The body of `getDocumentation`'s policy loop for one policy: either an
error (aborting the run), or optionally a bucket key and `Document`
together with the warnings emitted for this policy. -/
def processPolicy (cfg : Config) (outputDirectory : String) (policy : Policy) :
    Except String (Option (String × Document) × List Warning) :=
  if policy.title = "" then
    .ok (none, [Warning.noTitle policy.path])
  else
    let url :=
      if cfg.url ≠ "" then cfg.url ++ "/" ++ policy.path
      else
        renderPath (dirComponents (relComponents (absPath cfg.cwd outputDirectory)
          (absPath cfg.cwd policy.path)))
    let documentTitle :=
      if policy.policyID ≠ "" then policy.policyID ++ ": " ++ policy.title
      else policy.title
    let anchor := removeChar ':' (toLowerStr (replaceChar ' ' '-' documentTitle))
    match policy.matchers with
    | .error e => .error ("parse matchers from legacy annotations: " ++ e)
    | .ok legacyMatchers =>
      let matchResources0 :=
        if policy.annotationKindMatchers.length > 0 then
          trimSpace (policy.annotationKindMatchers.foldl (fun acc s => acc ++ s ++ " ") "")
        else legacyMatchers.kindMatchersString
      let resourcesAndWarnings :=
        if matchResources0 = "" then ("Any Resource", [Warning.noKindMatchers policy.path])
        else (matchResources0, ([] : List Warning))
      let matchLabels :=
        match policy.annotationLabelSelectorMatcher with
        | some sel => labelSelectorDocString sel
        | none => legacyMatchers.matchLabelsString
      let docParameters :=
        if policy.annotationParameters.length > 0 then
          annoParamsToLegacyFormat policy.annotationParameters
        else policy.parameters
      let header : Header :=
        { title := documentTitle, description := policy.description,
          resources := resourcesAndWarnings.1, matchLabels := matchLabels,
          anchor := anchor, parameters := docParameters }
      let regoText0 := if cfg.includeComments then policy.fullSource else policy.source
      let regoText := if cfg.noRego then "" else regoText0
      let document : Document := { header := header, url := url, rego := regoText }
      let bucket :=
        if policy.severity = "" then "Other"
        else if policy.enforcement = "dryrun" then "Not Enforced"
        else policy.severity
      .ok (some (bucket, document), resourcesAndWarnings.2)

/-- Models `documents[k] = append(documents[k], d)` on the bucket map,
represented as an association list: the existing entry for `k` is
extended, otherwise a new entry is created. -/
def addDoc (m : List (String × List Document)) (k : String) (d : Document) :
    List (String × List Document) :=
  match m with
  | [] => [(k, [d])]
  | kv :: rest => if kv.1 = k then (kv.1, kv.2 ++ [d]) :: rest else kv :: addDoc rest k d

/-- Bucket lookup with the Go map default (`nil` slice = empty list). -/
def getBucket (m : List (String × List Document)) (k : String) : List Document :=
  match m with
  | [] => []
  | kv :: rest => if kv.1 = k then kv.2 else getBucket rest k

/-- The sort order of `sortPoliciesByTitle`: ascending by composed title
(Go's `<` on strings, byte/codepoint-wise). -/
def docLE (a b : Document) : Prop :=
  a.header.title ≤ b.header.title

instance : DecidableRel docLE :=
  fun a b => inferInstanceAs (Decidable (a.header.title ≤ b.header.title))

instance : IsTotal Document docLE :=
  ⟨fun a b => le_total a.header.title b.header.title⟩

instance : IsTrans Document docLE :=
  ⟨fun _ _ _ hab hbc => le_trans hab hbc⟩

/-- Models `sortPoliciesByTitle` of `document.go`: each bucket's list is
sorted ascending by `Header.Title`. `sort.Slice` guarantees the ordering
induced by the less function and nothing about stability; it is modelled
by insertion sort, which produces a sorted permutation. -/
def sortPoliciesByTitle (m : List (String × List Document)) :
    List (String × List Document) :=
  m.map (fun kv => (kv.1, List.insertionSort docLE kv.2))

/-- Models `getDocumentation` of `document.go`. The Go loop interleaves
map updates with early return on error; that is reproduced by first
running the loop body over all policies (`mapM` short-circuits on the
first error exactly as the `return nil, err` does, discarding all partial
results) and then folding the produced documents into the bucket map and
concatenating the warnings in emission order. -/
def getDocumentation (cfg : Config) (outputDirectory : String) (policies : List Policy) :
    Except String (List (String × List Document) × List Warning) := do
  let results ← policies.mapM (processPolicy cfg outputDirectory)
  let documents := results.foldl (fun m r =>
    match r.1 with
    | some bd => addDoc m bd.1 bd.2
    | none => m) []
  let warnings := results.foldl (fun ws r => ws ++ r.2) []
  pure (sortPoliciesByTitle documents, warnings)

/-- Modelled from the spec: the anchor described as the composed title
lowercased, with every space replaced by a hyphen and every colon removed,
applying the operations in the spec's narration order (the code lowercases
after replacing spaces; the two orders are proved to agree below). -/
def specAnchor (t : String) : String :=
  removeChar ':' (replaceChar ' ' '-' (toLowerStr t))

/-- Modelled from the spec: joining a list of entries with a separator,
with no leading or trailing separator. -/
def joinSep (sep : String) : List String → String
  | [] => ""
  | [e] => e
  | e :: rest => e ++ sep ++ joinSep sep rest

/-- Byte/codepoint-wise lexicographic "less than" on character lists,
executable; used only by the spec-modelled sorted-by-key label rendering. -/
def charListLtb : List Char → List Char → Bool
  | [], [] => false
  | [], _ :: _ => true
  | _ :: _, [] => false
  | a :: as, b :: bs =>
    if a.toNat < b.toNat then true
    else if b.toNat < a.toNat then false
    else charListLtb as bs

/-- Insertion of a label pair into a key-sorted list (spec-side helper). -/
def insertByKey (kv : String × String) : List (String × String) → List (String × String)
  | [] => [kv]
  | x :: xs => if charListLtb kv.1.data x.1.data then kv :: x :: xs else x :: insertByKey kv xs

/-- The exact-match labels sorted by key (spec-side helper). -/
def sortByKey (l : List (String × String)) : List (String × String) :=
  l.foldr insertByKey []

/-- Rendering of one exact-match label: `key=value`. -/
def labelEntry (kv : String × String) : String :=
  kv.1 ++ "=" ++ kv.2

/-- Rendering of one expression match: `key OPERATOR [values]`. -/
def exprEntry (e : LabelSelectorRequirement) : String :=
  e.key ++ " " ++ e.operator ++ " " ++ goSliceFormat e.values

/-- Modelled from the spec: `MatchLabels` rendered as a deterministic
function of the selector, the exact-match labels enumerated in
sorted-by-key order, then the expression matches, joined by `", "`. -/
def labelSelectorDocStringSorted (selector : LabelSelector) : String :=
  joinSep ", " ((sortByKey selector.matchLabels).map labelEntry ++
    selector.matchExpressions.map exprEntry)

/-- Modelled from the spec: the per-entry conversion of a structured
parameter — array-typed entries get `IsArray=true` and the item schema's
type, all others become scalar entries with the declared type. -/
def annoParamEntry (pc : String × JSONSchemaProps) : Parameter :=
  if pc.2.type = "array" then
    { name := pc.1, description := pc.2.description, isArray := true, type := pc.2.itemsSchemaType }
  else
    { name := pc.1, description := pc.2.description, isArray := false, type := pc.2.type }

/-- Fixture: the parsed legacy matchers of the base policy. -/
def baseMatchers : Matchers :=
  { kindMatchersString := "Apps/Deployment", matchLabelsString := "app=nginx" }

/-- A concrete policy fixture used by the witness theorems. -/
def basePolicy : Policy :=
  { kind := "RequireLabels"
    path := "/out/sub/policy.rego"
    title := "Require Labels"
    description := "All resources must have labels."
    policyID := "POL-1"
    severity := "high"
    enforcement := "deny"
    matchers := Except.ok baseMatchers
    annotationKindMatchers := ["Apps/Deployment", "Core/Pod"]
    annotationLabelSelectorMatcher := none
    parameters := []
    annotationParameters := []
    source := "package lib"
    fullSource := "# comment\npackage lib" }

/-- A concrete configuration fixture used by the witness theorems. -/
def baseConfig : Config :=
  { url := "", noRego := false, includeComments := false, cwd := [] }

/-- Fixture: the base policy with dry-run enforcement. -/
def dryrunPolicy : Policy :=
  { basePolicy with enforcement := "dryrun" }

/-- Fixture: the base policy with no title. -/
def untitledPolicy : Policy :=
  { basePolicy with title := "" }

/-- Fixture: a policy with no structured kind matchers and an empty legacy
kind-matcher string. -/
def noKindPolicy : Policy :=
  { basePolicy with
    annotationKindMatchers := []
    matchers := Except.ok { kindMatchersString := "", matchLabelsString := "" } }

/-- Fixture: a policy whose legacy matcher parse fails while structured
kind matchers are present. -/
def badMatcherPolicy : Policy :=
  { basePolicy with matchers := Except.error "invalid legacy matcher" }

/-- Fixture: configuration with source suppression and comment inclusion
both enabled. -/
def noRegoConfig : Config :=
  { baseConfig with noRego := true, includeComments := true }

/-- Fixture: configuration with a base URL. -/
def urlConfig : Config :=
  { baseConfig with url := "https://example.com/policies" }

/-- Fixture: a policy with one structured array parameter named `tags`
whose item schema type is `string`. -/
def taggedParamPolicy : Policy :=
  { basePolicy with annotationParameters :=
      [("tags", { type := "array", description := "required tags", itemsSchemaType := "string" })] }

/-- Fixture: a label selector whose enumeration order is not key-sorted. -/
def unsortedSelector : LabelSelector :=
  { matchLabels := [("b", "2"), ("a", "1")], matchExpressions := [] }

/-- Fixture: a policy carrying the unsorted label selector. -/
def selectorPolicy : Policy :=
  { basePolicy with annotationLabelSelectorMatcher := some unsortedSelector }

theorem toNat_ofNatAux (n : Nat) (h : n.isValidChar) : (Char.ofNatAux n h).toNat = n :=
  rfl

theorem toNat_toLower (c : Char) :
    (Char.toLower c).toNat = if 65 ≤ c.toNat ∧ c.toNat ≤ 90 then c.toNat + 32 else c.toNat := by
  simp only [Char.toLower, Char.ofNat, ge_iff_le]
  by_cases h : 65 ≤ c.toNat ∧ c.toNat ≤ 90
  · have hv : (c.toNat + 32).isValidChar := Or.inl (by omega)
    rw [if_pos h, if_pos h, dif_pos hv, toNat_ofNatAux]
  · rw [if_neg h, if_neg h]

theorem char_eq_of_toNat_eq {a b : Char} (h : a.toNat = b.toNat) : a = b :=
  Char.ext (UInt32.toNat.inj h)

theorem toLower_eq_space_iff (c : Char) : Char.toLower c = ' ' ↔ c = ' ' := by
  constructor
  · intro h
    have h2 := congrArg Char.toNat h
    rw [toNat_toLower] at h2
    have hsp : (' ' : Char).toNat = 32 := rfl
    rw [hsp] at h2
    split at h2
    · omega
    · exact char_eq_of_toNat_eq (by rw [h2]; rfl)
  · intro h
    subst h
    decide

theorem toLower_swap_space_hyphen (c : Char) :
    Char.toLower (if c = ' ' then '-' else c) =
      if Char.toLower c = ' ' then '-' else Char.toLower c := by
  by_cases h : c = ' '
  · subst h
    decide
  · rw [if_neg h, if_neg (fun hc => h ((toLower_eq_space_iff c).mp hc))]

theorem anchor_eq_specAnchor (t : String) :
    removeChar ':' (toLowerStr (replaceChar ' ' '-' t)) = specAnchor t := by
  unfold specAnchor removeChar toLowerStr replaceChar
  apply String.ext
  simp only [List.map_map]
  congr 1
  apply List.map_congr_left
  intro a _
  simp only [Function.comp_apply]
  exact toLower_swap_space_hyphen a

theorem trimSpace_append_space (x : String) : trimSpace (x ++ " ") = trimSpace x := by
  unfold trimSpace
  apply String.ext
  simp only [String.data_append, List.reverse_append]
  have hws : Char.isWhitespace ' ' = true := rfl
  simp [List.dropWhile_cons, hws]

theorem trimSuffix_append (x suf : String) : trimSuffix (x ++ suf) suf = x := by
  unfold trimSuffix
  rw [if_pos]
  · apply String.ext
    simp only [String.data_append, List.length_append]
    rw [Nat.add_sub_cancel]
    exact List.take_left x.data suf.data
  · simp only [String.data_append]
    exact List.isSuffixOf_iff_suffix.mpr (List.suffix_append x.data suf.data)

theorem strFoldl_sep (sep : String) (l : List String) (a : String) :
    l.foldl (fun acc e => acc ++ e ++ sep) a = a ++ l.foldl (fun acc e => acc ++ e ++ sep) "" := by
  induction l generalizing a with
  | nil => simp
  | cons x xs ih =>
    simp only [List.foldl_cons]
    rw [ih (a ++ x ++ sep), ih ("" ++ x ++ sep)]
    simp [String.append_assoc]

theorem foldl_sep_eq_joinSep (sep : String) (e : String) (rest : List String) :
    (e :: rest).foldl (fun acc x => acc ++ x ++ sep) "" = joinSep sep (e :: rest) ++ sep := by
  induction rest generalizing e with
  | nil => simp [joinSep]
  | cons r rs ih =>
    rw [List.foldl_cons, strFoldl_sep sep (r :: rs) ("" ++ e ++ sep), ih r]
    simp [joinSep, String.append_assoc]

theorem warnFoldl_append (l : List (Option (String × Document) × List Warning)) (a : List Warning) :
    l.foldl (fun ws r => ws ++ r.2) a = a ++ l.foldl (fun ws r => ws ++ r.2) [] := by
  induction l generalizing a with
  | nil => simp
  | cons x xs ih =>
    simp only [List.foldl_cons]
    rw [ih (a ++ x.2), ih ([] ++ x.2)]
    simp [List.append_assoc]

theorem getBucket_addDoc_same (M : List (String × List Document)) (k : String) (d : Document) :
    getBucket (addDoc M k d) k = getBucket M k ++ [d] := by
  induction M with
  | nil => simp [addDoc, getBucket]
  | cons kv rest ih =>
    by_cases h : kv.1 = k
    · simp [addDoc, getBucket, h]
    · simp [addDoc, getBucket, h, ih]

theorem getBucket_addDoc_other (M : List (String × List Document)) (k k' : String) (d : Document)
    (h : k' ≠ k) : getBucket (addDoc M k d) k' = getBucket M k' := by
  have h2 : ¬(k = k') := fun hh => h hh.symm
  induction M with
  | nil => simp [addDoc, getBucket, h2]
  | cons kv rest ih =>
    by_cases hkv : kv.1 = k
    · have hkv2 : ¬(kv.1 = k') := fun hh => h2 (hkv ▸ hh)
      simp [addDoc, getBucket, hkv, hkv2, h2]
    · by_cases hkv3 : kv.1 = k'
      · simp [addDoc, getBucket, hkv, hkv3, h, ih]
      · simp [addDoc, getBucket, hkv, hkv3, h, ih]

theorem annoParams_foldl (ps : List (String × JSONSchemaProps)) (a : List Parameter) :
    ps.foldl (fun results pc =>
      if pc.2.type = "array" then
        results ++ [{ name := pc.1, description := pc.2.description, isArray := true,
                      type := pc.2.itemsSchemaType }]
      else
        results ++ [{ name := pc.1, description := pc.2.description, isArray := false,
                      type := pc.2.type }]) a = a ++ ps.map annoParamEntry := by
  induction ps generalizing a with
  | nil => simp
  | cons pc rest ih =>
    simp only [List.foldl_cons, List.map_cons]
    by_cases h : pc.2.type = "array"
    · rw [if_pos h, ih]
      simp [annoParamEntry, h]
    · rw [if_neg h, ih]
      simp [annoParamEntry, h]

theorem annoParamsToLegacyFormat_eq_map (ps : List (String × JSONSchemaProps)) :
    annoParamsToLegacyFormat ps = ps.map annoParamEntry := by
  unfold annoParamsToLegacyFormat
  rw [annoParams_foldl]
  simp

theorem labels_foldl_eq (l : List (String × String)) (a : String) :
    l.foldl (fun acc kv => acc ++ kv.1 ++ "=" ++ kv.2 ++ ", ") a
      = (l.map labelEntry).foldl (fun acc e => acc ++ e ++ ", ") a := by
  induction l generalizing a with
  | nil => simp
  | cons kv rest ih =>
    simp only [List.foldl_cons, List.map_cons]
    rw [ih]
    congr 1
    simp [labelEntry, String.append_assoc]

theorem exprs_foldl_eq (l : List LabelSelectorRequirement) (a : String) :
    l.foldl (fun acc e => acc ++ e.key ++ " " ++ e.operator ++ " " ++ goSliceFormat e.values ++ ", ") a
      = (l.map exprEntry).foldl (fun acc x => acc ++ x ++ ", ") a := by
  induction l generalizing a with
  | nil => simp
  | cons e rest ih =>
    simp only [List.foldl_cons, List.map_cons]
    rw [ih]
    congr 1
    simp [exprEntry, String.append_assoc]

theorem labelSelectorDocString_eq_joinSep (sel : LabelSelector) :
    labelSelectorDocString sel =
      joinSep ", " (sel.matchLabels.map labelEntry ++ sel.matchExpressions.map exprEntry) := by
  simp only [labelSelectorDocString]
  rw [labels_foldl_eq, exprs_foldl_eq, ← List.foldl_append]
  cases hes : sel.matchLabels.map labelEntry ++ sel.matchExpressions.map exprEntry with
  | nil => rfl
  | cons e rest => rw [foldl_sep_eq_joinSep, trimSuffix_append]

theorem stripCommon_append (b t : List String) : stripCommon b (b ++ t) = ([], t) := by
  induction b with
  | nil => cases t <;> rfl
  | cons x xs ih => simp [stripCommon, ih]

theorem relComponents_append (b t : List String) : relComponents b (b ++ t) = t := by
  unfold relComponents
  rw [stripCommon_append]
  simp

theorem sortPoliciesByTitle_forall2 (m : List (String × List Document)) :
    List.Forall₂ (fun kv skv => kv.1 = skv.1 ∧ List.Perm skv.2 kv.2 ∧ List.Sorted docLE skv.2)
      m (sortPoliciesByTitle m) := by
  induction m with
  | nil => simp [sortPoliciesByTitle]
  | cons kv rest ih =>
    simp only [sortPoliciesByTitle, List.map_cons]
    exact List.Forall₂.cons
      ⟨rfl, List.perm_insertionSort docLE kv.2, List.sorted_insertionSort docLE kv.2⟩
      (by simpa [sortPoliciesByTitle] using ih)

/-- C1: for every documented policy (nonempty title, parseable legacy
matchers) `processPolicy` yields exactly one bucket key and document; the
key is "Other" when the severity is empty (regardless of enforcement),
else "Not Enforced" when the enforcement mode is "dryrun" (overriding the
severity), else the severity itself; and `addDoc` appends the document to
exactly that bucket, leaving every other bucket unchanged. -/
theorem bucket_assignment_precedence (cfg : Config) (out : String) (p : Policy) (m : Matchers)
    (ht : p.title ≠ "") (hm : p.matchers = Except.ok m) :
    ∃ b d w, processPolicy cfg out p = Except.ok (some (b, d), w) ∧
      b = (if p.severity = "" then "Other"
           else if p.enforcement = "dryrun" then "Not Enforced"
           else p.severity) ∧
      ∀ M, getBucket (addDoc M b d) b = getBucket M b ++ [d] ∧
        ∀ k, k ≠ b → getBucket (addDoc M b d) k = getBucket M k := by
  unfold processPolicy
  rw [if_neg ht, hm]
  refine ⟨_, _, _, rfl, rfl, fun M => ⟨getBucket_addDoc_same M _ _, fun k hk =>
    getBucket_addDoc_other M _ k _ hk⟩⟩

/-- Witness for C1: a policy with severity "high" and enforcement "dryrun"
is placed in the "Not Enforced" bucket. -/
theorem bucket_assignment_precedence_witness :
    ∃ d w, processPolicy baseConfig "out" dryrunPolicy =
      Except.ok (some ("Not Enforced", d), w) := by
  obtain ⟨b, d, w, hpd, hb, _⟩ :=
    bucket_assignment_precedence baseConfig "out" dryrunPolicy baseMatchers (by decide) rfl
  have hbN : b = "Not Enforced" := by
    rw [hb]
    decide
  exact ⟨d, w, by rw [← hbN]; exact hpd⟩

/-- C2: a policy whose resolved title is empty produces no document and no
error, only a `noTitle` warning; prepending it to any policy list leaves
the produced bucket map and the error behaviour unchanged, adding exactly
that warning. -/
theorem untitled_policy_skipped (cfg : Config) (out : String) (p : Policy) (ps : List Policy)
    (hp : p.title = "") :
    processPolicy cfg out p = Except.ok (none, [Warning.noTitle p.path]) ∧
    getDocumentation cfg out (p :: ps) =
      (getDocumentation cfg out ps).map (fun r => (r.1, Warning.noTitle p.path :: r.2)) := by
  have hpp : processPolicy cfg out p = Except.ok (none, [Warning.noTitle p.path]) := by
    unfold processPolicy
    rw [if_pos hp]
  refine ⟨hpp, ?_⟩
  unfold getDocumentation
  rw [List.mapM_cons, hpp]
  cases hres : List.mapM (processPolicy cfg out) ps with
  | error e => simp [Except.map, Bind.bind, Except.bind]
  | ok rs =>
    simp only [Except.map, Bind.bind, Except.bind, Pure.pure, Except.pure, List.foldl_cons]
    rw [warnFoldl_append rs ([] ++ [Warning.noTitle p.path])]
    simp

/-- Witness for C2: the untitled fixture policy is skipped with a warning. -/
theorem untitled_policy_skipped_witness :
    processPolicy baseConfig "out" untitledPolicy =
        Except.ok (none, [Warning.noTitle untitledPolicy.path]) ∧
    getDocumentation baseConfig "out" (untitledPolicy :: []) =
      (getDocumentation baseConfig "out" []).map
        (fun r => (r.1, Warning.noTitle untitledPolicy.path :: r.2)) :=
  untitled_policy_skipped baseConfig "out" untitledPolicy [] rfl

/-- C3: the Header's Title is the composed title — "<identifier>: <title>"
when the policy identifier is nonempty, else the title alone — and the
Header's Anchor is the composed title lowercased with every space replaced
by a hyphen and every colon removed. -/
theorem composed_title_and_anchor (cfg : Config) (out : String) (p : Policy) (m : Matchers)
    (ht : p.title ≠ "") (hm : p.matchers = Except.ok m) :
    ∃ b d w, processPolicy cfg out p = Except.ok (some (b, d), w) ∧
      d.header.title = (if p.policyID ≠ "" then p.policyID ++ ": " ++ p.title else p.title) ∧
      d.header.anchor = specAnchor d.header.title := by
  unfold processPolicy
  rw [if_neg ht, hm]
  refine ⟨_, _, _, rfl, rfl, anchor_eq_specAnchor _⟩

/-- Witness for C3 at the fixture policy "POL-1"/"Require Labels": the
composed title is "POL-1: Require Labels" and the anchor is
"pol-1-require-labels". -/
theorem composed_title_and_anchor_witness :
    ∃ b d w, processPolicy baseConfig "out" basePolicy = Except.ok (some (b, d), w) ∧
      d.header.title = "POL-1: Require Labels" ∧
      d.header.anchor = "pol-1-require-labels" := by
  obtain ⟨b, d, w, hpd, htitle, hanchor⟩ :=
    composed_title_and_anchor baseConfig "out" basePolicy baseMatchers (by decide) rfl
  refine ⟨b, d, w, hpd, ?_, ?_⟩
  · rw [htitle]
    decide
  · rw [hanchor, htitle]
    decide

/-- C6: the Document's Rego text is empty whenever no-rego is set, even
when include-comments is also set; otherwise it is the full source when
include-comments is set and the comment-stripped source when not. -/
theorem rego_source_text (cfg : Config) (out : String) (p : Policy) (m : Matchers)
    (ht : p.title ≠ "") (hm : p.matchers = Except.ok m) :
    ∃ b d w, processPolicy cfg out p = Except.ok (some (b, d), w) ∧
      (cfg.noRego = true → d.rego = "") ∧
      (cfg.noRego = false → d.rego = if cfg.includeComments then p.fullSource else p.source) := by
  unfold processPolicy
  rw [if_neg ht, hm]
  refine ⟨_, _, _, rfl, ?_, ?_⟩
  · intro h
    simp [h]
  · intro h
    simp [h]

/-- Witness for C6: no-rego and include-comments both set still empties
the Document's source text. -/
theorem rego_source_text_witness :
    ∃ b d w, processPolicy noRegoConfig "out" basePolicy = Except.ok (some (b, d), w) ∧
      d.rego = "" := by
  obtain ⟨b, d, w, hpd, hempty, _⟩ :=
    rego_source_text noRegoConfig "out" basePolicy baseMatchers (by decide) rfl
  exact ⟨b, d, w, hpd, hempty rfl⟩

/-- C7: the parameter list prefers the structured mapping when non-empty —
every array-typed entry becomes a parameter with IsArray=true and the item
schema's type, every other entry a scalar parameter with its declared type
— and falls back to the legacy resolved list when the mapping is empty. -/
theorem parameter_resolution (cfg : Config) (out : String) (p : Policy) (m : Matchers)
    (ht : p.title ≠ "") (hm : p.matchers = Except.ok m) :
    ∃ b d w, processPolicy cfg out p = Except.ok (some (b, d), w) ∧
      d.header.parameters =
        (if p.annotationParameters = [] then p.parameters
         else p.annotationParameters.map annoParamEntry) := by
  unfold processPolicy
  rw [if_neg ht, hm]
  refine ⟨_, _, _, rfl, ?_⟩
  by_cases h : p.annotationParameters = []
  · simp [h]
  · simp [h, annoParamsToLegacyFormat_eq_map, List.length_pos.mpr h]

/-- Witness for C7: the structured parameter "tags" of declared type
"array" with item schema type "string" resolves to the single parameter
entry with Name "tags", IsArray true and Type "string". -/
theorem parameter_resolution_witness :
    ∃ b d w, processPolicy baseConfig "out" taggedParamPolicy = Except.ok (some (b, d), w) ∧
      d.header.parameters =
        [{ name := "tags", description := "required tags", isArray := true, type := "string" }] := by
  obtain ⟨b, d, w, hpd, hparams⟩ :=
    parameter_resolution baseConfig "out" taggedParamPolicy baseMatchers (by decide) rfl
  refine ⟨b, d, w, hpd, ?_⟩
  rw [hparams]
  decide

/-- C4: the Resources field prefers the structured kind matchers —
formatted entries joined with a single space and trimmed — falls back to
the legacy pre-formatted string when the structured list is empty, and
becomes the sentinel "Any Resource" with exactly one warning when the
resolved string is empty. -/
theorem resources_resolution (cfg : Config) (out : String) (p : Policy) (m : Matchers)
    (ht : p.title ≠ "") (hm : p.matchers = Except.ok m) :
    ∃ b d w, processPolicy cfg out p = Except.ok (some (b, d), w) ∧
      ((if p.annotationKindMatchers = [] then m.kindMatchersString
        else trimSpace (joinSep " " p.annotationKindMatchers)) = "" →
        d.header.resources = "Any Resource" ∧ w = [Warning.noKindMatchers p.path]) ∧
      ((if p.annotationKindMatchers = [] then m.kindMatchersString
        else trimSpace (joinSep " " p.annotationKindMatchers)) ≠ "" →
        d.header.resources =
          (if p.annotationKindMatchers = [] then m.kindMatchersString
           else trimSpace (joinSep " " p.annotationKindMatchers)) ∧ w = []) := by
  unfold processPolicy
  rw [if_neg ht, hm]
  have hres : (if p.annotationKindMatchers.length > 0 then
        trimSpace (p.annotationKindMatchers.foldl (fun acc s => acc ++ s ++ " ") "")
      else m.kindMatchersString)
      = (if p.annotationKindMatchers = [] then m.kindMatchersString
         else trimSpace (joinSep " " p.annotationKindMatchers)) := by
    cases haks : p.annotationKindMatchers with
    | nil => simp
    | cons x xs =>
      rw [if_pos (by simp), if_neg (by simp), foldl_sep_eq_joinSep " " x xs,
        trimSpace_append_space]
  refine ⟨_, _, _, rfl, ?_, ?_⟩
  · intro h0
    simp [hres, h0]
  · intro h0
    simp [hres, h0]

/-- Witness for C4: a policy with no structured kind matchers and an empty
legacy matcher string resolves to "Any Resource" with exactly one warning. -/
theorem resources_resolution_witness :
    ∃ b d w, processPolicy baseConfig "out" noKindPolicy = Except.ok (some (b, d), w) ∧
      d.header.resources = "Any Resource" ∧ w = [Warning.noKindMatchers noKindPolicy.path] := by
  obtain ⟨b, d, w, hpd, hempty, _⟩ := resources_resolution baseConfig "out" noKindPolicy
    { kindMatchersString := "", matchLabelsString := "" } (by decide) rfl
  obtain ⟨h1, h2⟩ := hempty (by decide)
  exact ⟨b, d, w, hpd, h1, h2⟩

/-- C5: the result of getDocumentation is the assembled bucket map passed
through sortPoliciesByTitle, and every bucket list in the output is a
permutation of its assembled bucket, sorted ascending by composed title. -/
theorem buckets_sorted (cfg : Config) (out : String) (ps : List Policy)
    (r : List (String × List Document) × List Warning)
    (h : getDocumentation cfg out ps = Except.ok r) :
    ∃ m0, r.1 = sortPoliciesByTitle m0 ∧
      List.Forall₂ (fun kv skv => kv.1 = skv.1 ∧ List.Perm skv.2 kv.2 ∧ List.Sorted docLE skv.2)
        m0 r.1 := by
  unfold getDocumentation at h
  cases hres : List.mapM (processPolicy cfg out) ps with
  | error e =>
    rw [hres] at h
    simp [Bind.bind, Except.bind] at h
  | ok rs =>
    rw [hres] at h
    simp only [Bind.bind, Except.bind, Pure.pure, Except.pure, Except.ok.injEq] at h
    subst h
    exact ⟨_, rfl, sortPoliciesByTitle_forall2 _⟩

/-- Witness for C5 at the empty policy list. -/
theorem buckets_sorted_witness :
    ∃ m0, (([], []) : List (String × List Document) × List Warning).1 =
        sortPoliciesByTitle m0 ∧
      List.Forall₂ (fun kv skv => kv.1 = skv.1 ∧ List.Perm skv.2 kv.2 ∧ List.Sorted docLE skv.2)
        m0 (([], []) : List (String × List Document) × List Warning).1 :=
  buckets_sorted baseConfig "out" [] ([], []) rfl

/-- C8: the URL is the base URL, "/", and the policy path exactly as given
when a base URL is configured; otherwise it is the policy directory's path
relative to the absolute output directory, joined with forward slashes. -/
theorem url_resolution (cfg : Config) (out : String) (p : Policy) (m : Matchers)
    (ht : p.title ≠ "") (hm : p.matchers = Except.ok m) :
    ∃ b d w, processPolicy cfg out p = Except.ok (some (b, d), w) ∧
      (cfg.url ≠ "" → d.url = cfg.url ++ "/" ++ p.path) ∧
      (cfg.url = "" → ∀ (sub : List String) (file : String), sub ≠ [] →
        absPath cfg.cwd p.path = absPath cfg.cwd out ++ (sub ++ [file]) →
        d.url = String.intercalate "/" sub) := by
  unfold processPolicy
  rw [if_neg ht, hm]
  refine ⟨_, _, _, rfl, ?_, ?_⟩
  · intro h
    simp [h]
  · intro h sub file hsub habs
    simp only [h, ne_eq, not_true_eq_false, if_false, habs, relComponents_append,
      dirComponents, List.dropLast_concat, renderPath, if_neg hsub]

/-- Witness for C8: output directory "/out" and policy path
"/out/sub/policy.rego" with no base URL resolve to the URL "sub". -/
theorem url_resolution_witness :
    ∃ b d w, processPolicy baseConfig "/out" basePolicy = Except.ok (some (b, d), w) ∧
      d.url = "sub" := by
  obtain ⟨b, d, w, hpd, _, hrel⟩ :=
    url_resolution baseConfig "/out" basePolicy baseMatchers (by decide) rfl
  refine ⟨b, d, w, hpd, ?_⟩
  have h := hrel rfl ["sub"] "policy.rego" (by decide) (by decide)
  rw [h]
  decide

/-- C9 counterexample: the code renders exact-match labels in the map's
enumeration order, not in sorted-by-key order — a selector enumerated as
b before a renders "b=2, a=1", while the sorted rendering claimed by the
spec is "a=1, b=2". -/
theorem label_order_counterexample :
    labelSelectorDocString unsortedSelector = "b=2, a=1" ∧
    labelSelectorDocStringSorted unsortedSelector = "a=1, b=2" ∧
    ("b=2, a=1" : String) ≠ "a=1, b=2" := by
  refine ⟨by decide, by decide, by decide⟩

/-- C9 (amended): MatchLabels prefers the structured selector — the
exact-match labels rendered as key=value in the mapping's enumeration
order (not necessarily sorted), then expression matches rendered as
"key OPERATOR [values]", joined by ", " with no trailing separator — and
falls back to the legacy pre-formatted label string when no structured
selector exists. -/
theorem match_labels_resolution (cfg : Config) (out : String) (p : Policy) (m : Matchers)
    (ht : p.title ≠ "") (hm : p.matchers = Except.ok m) :
    ∃ b d w, processPolicy cfg out p = Except.ok (some (b, d), w) ∧
      d.header.matchLabels =
        (match p.annotationLabelSelectorMatcher with
         | some sel => joinSep ", " (sel.matchLabels.map labelEntry ++
             sel.matchExpressions.map exprEntry)
         | none => m.matchLabelsString) := by
  unfold processPolicy
  rw [if_neg ht, hm]
  refine ⟨_, _, _, rfl, ?_⟩
  cases hsel : p.annotationLabelSelectorMatcher with
  | none => simp [hsel]
  | some sel => simp [hsel, labelSelectorDocString_eq_joinSep]

/-- Witness for C9 (amended) at the unsorted-selector fixture policy: the
labels render in enumeration order as "b=2, a=1". -/
theorem match_labels_resolution_witness :
    ∃ b d w, processPolicy baseConfig "out" selectorPolicy = Except.ok (some (b, d), w) ∧
      d.header.matchLabels = "b=2, a=1" := by
  obtain ⟨b, d, w, hpd, hml⟩ :=
    match_labels_resolution baseConfig "out" selectorPolicy baseMatchers (by decide) rfl
  refine ⟨b, d, w, hpd, ?_⟩
  rw [hml]
  decide

/-- C10: a policy with a nonempty title whose legacy matcher parse fails
makes processPolicy return an error, and the whole run aborts with that
error (no documents produced), even though structured kind matchers would
take precedence over the legacy matchers. -/
theorem legacy_matcher_error_aborts (cfg : Config) (out : String) (pre : List Policy)
    (p : Policy) (ps : List Policy) (e : String)
    (ht : p.title ≠ "") (he : p.matchers = Except.error e)
    (hpre : ∀ q ∈ pre, ∃ res, processPolicy cfg out q = Except.ok res) :
    processPolicy cfg out p = Except.error ("parse matchers from legacy annotations: " ++ e) ∧
    getDocumentation cfg out (pre ++ p :: ps) =
      Except.error ("parse matchers from legacy annotations: " ++ e) := by
  have hpp : processPolicy cfg out p =
      Except.error ("parse matchers from legacy annotations: " ++ e) := by
    unfold processPolicy
    rw [if_neg ht, he]
  refine ⟨hpp, ?_⟩
  have key : ∀ (pre' : List Policy),
      (∀ q ∈ pre', ∃ res, processPolicy cfg out q = Except.ok res) →
      List.mapM (processPolicy cfg out) (pre' ++ p :: ps) =
        Except.error ("parse matchers from legacy annotations: " ++ e) := by
    intro pre'
    induction pre' with
    | nil =>
      intro _
      rw [List.nil_append, List.mapM_cons, hpp]
      rfl
    | cons q rest ih =>
      intro hq
      obtain ⟨res, hres⟩ := hq q (List.mem_cons_self q rest)
      rw [List.cons_append, List.mapM_cons, hres]
      have hrest := ih (fun x hx => hq x (List.mem_cons_of_mem q hx))
      simp only [Bind.bind, Except.bind]
      rw [hrest]
  unfold getDocumentation
  rw [key pre hpre]
  rfl

/-- Witness for C10: the bad-matcher fixture (which has structured kind
matchers) aborts the run. -/
theorem legacy_matcher_error_aborts_witness :
    processPolicy baseConfig "out" badMatcherPolicy =
      Except.error ("parse matchers from legacy annotations: " ++ "invalid legacy matcher") ∧
    getDocumentation baseConfig "out" ([] ++ badMatcherPolicy :: []) =
      Except.error ("parse matchers from legacy annotations: " ++ "invalid legacy matcher") :=
  legacy_matcher_error_aborts baseConfig "out" [] badMatcherPolicy [] "invalid legacy matcher"
    (by decide) rfl (fun q hq => absurd hq (List.not_mem_nil q))

end Konstraint
